import Mathlib

/-!
Verification of the request-coalescing, bounded-concurrency dispatch and
cache-consistency layer of the communibase connector.

The definitions below are a shallow embedding of `src/src/index.ts` (the
current TypeScript source of the repository).  Promises are modelled by
natural-number handles allocated from a counter; the synchronous part of
each operation is a state-transition function on `ConnState`, and the
asynchronous delivery of a network result is a separate pure function
applied afterwards.  A synchronously thrown JavaScript exception is
modelled by `Except.error`; a returned (possibly already rejected)
promise is modelled in the `Except.ok` branch.
-/

set_option autoImplicit false

namespace Communibase

/-- A JavaScript `Error`-like value: `name`, `message`, and the optional
numeric `code` carried by `CommunibaseError` (src/src/index.ts lines 90-107). -/
structure JsError where
  name : String := "Error"
  message : String := ""
  code : Option Nat := none
  deriving DecidableEq, Repr

/-- JavaScript `String(error)` / `Error.prototype.toString`: `name: message`,
dropping the colon when either part is empty. -/
def JsError.render (e : JsError) : String :=
  if e.name = "" then e.message
  else if e.message = "" then e.name
  else e.name ++ ": " ++ e.message

/-- JavaScript `new Error(error)` applied to an existing error value: the new
message is the string conversion of the argument. -/
def newError (e : JsError) : JsError :=
  { name := "Error", message := e.render }

/-- `new Error(objectId + " is not found")` (src/src/index.ts line 967). -/
def notFoundError (objectId : String) : JsError :=
  { name := "Error", message := objectId ++ " is not found" }

/-- `new Error("Invalid objectId")` (src/src/index.ts line 239). -/
def invalidObjectIdError : JsError :=
  { name := "Error", message := "Invalid objectId" }

/-- The missing-credential rejection of the queue worker
(src/src/index.ts lines 164-173); message truncated to its first clause. -/
def missingKeyError : JsError :=
  { name := "Error"
    message := "Missing key or token for Communibase Connector: please set COMMUNIBASE_KEY environment variable" }

/-- The TypeError thrown when JavaScript reads a property of `undefined`. -/
def undefinedReadError : JsError :=
  { name := "TypeError", message := "Cannot read property objectCache of undefined" }

/-- A Communibase document: its `_id` plus an abstract payload standing for
the remaining fields. -/
structure Doc where
  _id : String
  body : Nat := 0
  deriving DecidableEq, Repr

/-- The request body of an outbound task: either the multi-get search
selector built by `privateGetByIds` (src/src/index.ts lines 929-935),
or some other selector, kept abstract. -/
inductive SearchSelector where
  | idIn (ids : List String)
  | plain (s : String)
  deriving DecidableEq, Repr

/-- The `params` argument (`ICommunibaseParams`); only the members the
claims depend on are modelled. -/
structure Params where
  fields : Option String := none
  limit : Option Nat := none
  deriving DecidableEq, Repr

/-- An outbound task pushed on the dispatch queue
(`ICommunibaseTask`, src/src/index.ts lines 52-64); `deferred` is the
promise handle the queue worker settles. -/
structure Task where
  url : String
  method : String
  data : Option SearchSelector := none
  params : Option Params := none
  deferred : Nat
  deriving DecidableEq, Repr

/-- JavaScript object-as-map, keeping insertion order of string keys the way
`Object.keys` reports it: an association list. -/
def lookupA {α : Type} (m : List (String × α)) (k : String) : Option α :=
  match m with
  | [] => none
  | p :: rest => if p.1 = k then some p.2 else lookupA rest k

/-- JavaScript `m[k] = v`: update the existing entry in place, or append a
new key in insertion order. -/
def setA {α : Type} (m : List (String × α)) (k : String) (v : α) : List (String × α) :=
  match m with
  | [] => [(k, v)]
  | p :: rest => if p.1 = k then (k, v) :: rest else p :: setA rest k v

/-- The optional cache of the connector (src/src/index.ts lines 128-142).
The per-type LRU containers of `getIdsCaches` and `aggregateCaches` are
modelled as hash-to-value association lists; a `none` value is the `null`
the invalidation handler assigns.  Entries of `objectCache` hold a promise
handle, `none` standing for an entry assigned `null`.  The `dirtySock`
socket handle is external and carries no cache state. -/
structure CacheState where
  objectCache : List (String × List (String × Option Nat)) := []
  getIdsCaches : List (String × Option (List (String × List String))) := []
  aggregateCaches : List (String × Option (List (String × Nat))) := []
  deriving DecidableEq, Repr

/-- The connector state (src/src/index.ts lines 117-150): the pending-fetch
table `getByIdQueue`, the spool flag, the optional cache, the dispatch-queue
submissions so far, and the promise-handle counter. -/
structure ConnState where
  getByIdQueue : List (String × List (String × Nat)) := []
  getByIdPrimed : Bool := false
  cache : Option CacheState := none
  nextPromiseId : Nat := 0
  tasks : List Task := []
  serviceUrl : String := "https://api.communibase.nl/0.1/"
  deriving DecidableEq, Repr

/-- A freshly constructed connector (src/src/index.ts lines 144-151). -/
def freshConn : ConnState := {}

/-- `enableCache` (src/src/index.ts lines 867-882): installs the cache with
empty tiers.  The socket connection itself is external. -/
def enableCache (s : ConnState) : ConnState :=
  { s with cache := some {} }

/-- JavaScript truthiness of an optional string (`undefined` and `""` are
falsy). -/
def optTruthy (v : Option String) : Bool :=
  match v with
  | none => false
  | some s => s != ""

/-- Truthiness of `params && params.fields` (src/src/index.ts line 243). -/
def hasFields (params : Option Params) : Bool :=
  match params with
  | none => false
  | some p => optTruthy p.fields

/-- Inside `isAvailable` (src/src/index.ts lines 876-881) the receiver
`this` is the cache object literal itself, whose properties are
`getIdsCaches`, `aggregateCaches`, `dirtySock`, `objectCache` and
`isAvailable`.  It has no property named `cache`, so the JavaScript
expression `this.cache` evaluates to `undefined`. -/
def cacheSelfLookup (_c : CacheState) : Option CacheState := none

/-- `isAvailable` (src/src/index.ts lines 876-881): evaluates
`this.cache.objectCache[objectType] && this.cache.objectCache[objectType][objectId]`
where `this` is the cache object literal; since `this.cache` is `undefined`,
the first member access throws. -/
def isAvailable (c : CacheState) (objectType objectId : String) : Except JsError Bool :=
  match cacheSelfLookup c with
  | none => Except.error undefinedReadError
  | some c2 =>
    Except.ok ((((lookupA c2.objectCache objectType).getD []
      |> fun sub => lookupA sub objectId).getD none).isSome)

/-- The cached promise returned on line 260
(`this.cache.objectCache[objectType][objectId]`); only reachable if
`isAvailable` returns a truthy value, which it never does. -/
def cachedEntry (c : CacheState) (objectType objectId : String) : Nat :=
  (((lookupA c.objectCache objectType).getD []
    |> fun sub => lookupA sub objectId).getD none).getD 0

/-- What `getById` hands back when it does not throw: either the rejected
promise of line 239, or the promise of a deferred. -/
inductive GetByIdRes where
  | rejectedPromise (e : JsError)
  | future (d : Nat)
  deriving DecidableEq, Repr

/-- Lines 275-282 of src/src/index.ts: publish the freshly installed pending
deferred into the object cache when the cache is enabled. -/
def publishToCache (s : ConnState) (objectType objectId : String) (d : Nat) : ConnState :=
  match s.cache with
  | none => s
  | some c =>
    let oc := if (lookupA c.objectCache objectType).isNone
      then setA c.objectCache objectType [] else c.objectCache
    let sub := (lookupA oc objectType).getD []
    { s with cache := some { c with objectCache := setA oc objectType (setA sub objectId (some d)) } }

/-- Lines 264-291 of src/src/index.ts: the coalescing path of `getById`.
Ensure the per-type sub-map exists, return the pending deferred's promise on
a repeated request, otherwise install a new deferred, publish it to the
cache when enabled, and prime the spool. -/
def coalesceGet (s : ConnState) (objectType objectId : String) : GetByIdRes × ConnState :=
  let q1 := if (lookupA s.getByIdQueue objectType).isNone
    then setA s.getByIdQueue objectType [] else s.getByIdQueue
  let sub := (lookupA q1 objectType).getD []
  match lookupA sub objectId with
  | some d => (GetByIdRes.future d, { s with getByIdQueue := q1 })
  | none =>
    let d := s.nextPromiseId
    let s2 := { s with getByIdQueue := setA q1 objectType (setA sub objectId d)
                       nextPromiseId := d + 1 }
    let s3 := publishToCache s2 objectType objectId d
    let s4 := if s3.getByIdPrimed then s3 else { s3 with getByIdPrimed := true }
    (GetByIdRes.future d, s4)

/-- The dedicated task of the non-combinable branch of `getById`
(src/src/index.ts lines 243-256). -/
def directGetByIdTask (s : ConnState) (objectType objectId : String)
    (params : Option Params) (versionId : Option String) (d : Nat) : Task :=
  { url := s.serviceUrl ++ objectType ++ ".json/" ++
      (match versionId with
       | some v => "history/" ++ objectId ++ "/" ++ v
       | none => "crud/" ++ objectId)
    method := "GET"
    params := params
    deferred := d }

/-- `getById` (src/src/index.ts lines 232-291).  `Except.error` models a
synchronously thrown exception. -/
def getById (s : ConnState) (objectType objectId : String)
    (params : Option Params) (versionId : Option String) :
    Except JsError (GetByIdRes × ConnState) :=
  if objectId.length ≠ 24 then
    Except.ok (GetByIdRes.rejectedPromise invalidObjectIdError, s)
  else if optTruthy versionId || hasFields params then
    let d := s.nextPromiseId
    Except.ok (GetByIdRes.future d,
      { s with nextPromiseId := d + 1
               tasks := s.tasks ++ [directGetByIdTask s objectType objectId params versionId d] })
  else
    match s.cache with
    | some c =>
      (isAvailable c objectType objectId).bind fun avail =>
        if avail then Except.ok (GetByIdRes.future (cachedEntry c objectType objectId), s)
        else Except.ok (coalesceGet s objectType objectId)
    | none => Except.ok (coalesceGet s objectType objectId)

/-- One spooled batch: the entity type, the pending ids in `Object.keys`
order, the drained sub-map of deferreds, and the handle of the deferred
attached to the submitted multi-get task. -/
structure Batch where
  objectType : String
  objectIds : List String
  deferredsById : List (String × Nat)
  batchDeferred : Nat
  deriving DecidableEq, Repr

/-- `spoolQueue` (src/src/index.ts lines 941-979): for every key of the
pending-fetch table, drain its sub-map, reset the entry to an empty map,
and submit one multi-get task via `privateGetByIds`/`queueSearch`
(lines 900-936) whose body is the selector restricting `_id` to the pending
ids.  The fan-out of the eventual batch result is the separate function
`spoolSettle`, applied when the result arrives: the sub-map is cleared
here, before that. -/
def spoolQueue (s : ConnState) : ConnState × List Batch :=
  let out := s.getByIdQueue.foldl
    (fun (acc : ConnState × List Batch) p =>
      let st := acc.1
      let objectType := p.1
      let deferredsById := p.2
      let objectIds := deferredsById.map (fun q => q.1)
      let st1 := { st with getByIdQueue := setA st.getByIdQueue objectType [] }
      let d := st1.nextPromiseId
      let task : Task :=
        { url := st1.serviceUrl ++ objectType ++ ".json/search"
          method := "POST"
          data := some (SearchSelector.idIn objectIds)
          deferred := d }
      ({ st1 with nextPromiseId := d + 1, tasks := st1.tasks ++ [task] },
       acc.2 ++ [{ objectType := objectType, objectIds := objectIds
                   deferredsById := deferredsById, batchDeferred := d }]))
    (s, [])
  ({ out.1 with getByIdPrimed := false }, out.2)

/-- The outcome delivered to one deferred. -/
inductive Settlement where
  | resolvedDoc (d : Doc)
  | rejectedErr (e : JsError)
  deriving DecidableEq, Repr

/-- The `reduce` of src/src/index.ts lines 949-960: index the returned
documents by `_id` (a later document with the same `_id` overwrites the
value, keeping the first insertion position, as JavaScript assignment
does). -/
def objectHash (objects : List Doc) : List (String × Doc) :=
  objects.foldl (fun acc d => setA acc d._id d) []

/-- Lines 947-976 of src/src/index.ts: deliver a multi-get outcome to the
drained deferreds.  On success each pending id found in the indexed result
resolves its deferred, a missing id rejects its own deferred with the
not-found error; on failure every deferred is rejected with the batch
error.  The iteration runs over `objectIds`, which the spool computed as
the keys of `deferredsById`, so the lookup of the deferred always
succeeds there; an impossible miss is skipped. -/
def spoolSettle (deferredsById : List (String × Nat))
    (outcome : Except JsError (List Doc)) : List (Nat × Settlement) :=
  let objectIds := deferredsById.map (fun q => q.1)
  match outcome with
  | Except.ok objects =>
    let hash := objectHash objects
    objectIds.filterMap fun oid =>
      (lookupA deferredsById oid).map fun h =>
        (h, match lookupA hash oid with
            | some doc => Settlement.resolvedDoc doc
            | none => Settlement.rejectedErr (notFoundError oid))
  | Except.error err =>
    objectIds.filterMap fun oid =>
      (lookupA deferredsById oid).map fun h => (h, Settlement.rejectedErr err)

/-- Issue a sequence of same-type `getById` calls within one synchronous
turn (the scenario of the coalescer), threading the connector state. -/
def runSame (objectType : String) (params : Option Params) :
    List String → ConnState → Except JsError (List GetByIdRes × ConnState)
  | [], s => Except.ok ([], s)
  | objectId :: rest, s =>
    (getById s objectType objectId params none).bind fun r =>
      (runSame objectType params rest r.2).bind fun r2 =>
        Except.ok (r.1 :: r2.1, r2.2)

/-- What `getByIds` hands back: the immediately resolved empty array of
line 308, the future of the dedicated search of `privateGetByIds`
(fields requested), or the per-id futures whose settled values feed
`aggregateInspections`. -/
inductive GetByIdsRes where
  | immediate (docs : List Doc)
  | viaSearch (d : Nat)
  | aggregated (futures : List GetByIdRes)
  deriving DecidableEq, Repr

/-- `getByIds` (src/src/index.ts lines 302-339), synchronous part:
an empty id list resolves at once; a fields-restricted call goes through
`privateGetByIds` (lines 922-936); otherwise every id is fetched through
`getById` and the inspected results are later aggregated by
`aggregateInspections`. -/
def getByIds (s : ConnState) (objectType : String) (objectIds : List String)
    (params : Option Params) : Except JsError (GetByIdsRes × ConnState) :=
  if objectIds.length = 0 then
    Except.ok (GetByIdsRes.immediate [], s)
  else if hasFields params then
    let d := s.nextPromiseId
    let task : Task :=
      { url := s.serviceUrl ++ objectType ++ ".json/search"
        method := "POST"
        data := some (SearchSelector.idIn objectIds)
        params := params
        deferred := d }
    Except.ok (GetByIdsRes.viaSearch d,
      { s with nextPromiseId := d + 1, tasks := s.tasks ++ [task] })
  else
    (runSame objectType params objectIds s).bind fun r =>
      Except.ok (GetByIdsRes.aggregated r.1, r.2)

/-- Lines 318-338 of src/src/index.ts: fold the settled per-id outcomes
(bluebird `reflect` inspections, in input order), collecting fulfilled
values and remembering the reason of the most recent rejection; resolve
with the collected values when any exist, otherwise throw
`new Error(error)` when a rejection was seen, otherwise resolve with the
empty array. -/
def aggregateInspections (inspections : List (Except JsError Doc)) :
    Except JsError (List Doc) :=
  let out := inspections.foldl
    (fun (acc : List Doc × Option JsError) insp =>
      match insp with
      | Except.error e => (acc.1, some e)
      | Except.ok v => (acc.1 ++ [v], acc.2))
    ([], none)
  if out.1.length ≠ 0 then Except.ok out.1
  else
    match out.2 with
    | some e => Except.error (newError e)
    | none => Except.ok out.1

/-- `getId` (src/src/index.ts lines 417-424): call `getIds` with the same
selector and a limit of one, then resolve with `ids.pop()` — the last
element of the array, or `undefined` (here `none`) when it is empty.
`getIds` itself is abstracted as an oracle argument giving the settled
outcome of `this.getIds(objectType, selector, params)`. -/
def getId (getIdsFn : Option SearchSelector → Params → Except JsError (List String))
    (selector : Option SearchSelector) : Except JsError (Option String) :=
  (getIdsFn selector { limit := some 1 }).map fun ids => ids.getLast?

/-- JavaScript `dirtyness.split("|")` (src/src/index.ts line 887): split on
every pipe character, keeping empty segments, the empty string splitting to
one empty part. -/
def jsSplitPipe (s : String) : List String :=
  (s.toList.splitOn (Char.ofNat 124)).map fun cs => String.mk cs

/-- The dirty-socket message handler (src/src/index.ts lines 886-897);
installed by `enableCache`, its `this` is the connector (arrow function).
A malformed message (not exactly two pipe-separated parts) is logged and
leaves all state alone; a well-formed `entityType|objectId` message nulls
the per-type id-search and aggregate tiers and nulls the single
object-cache entry of that id when the per-type sub-map exists. -/
def handleDirtyMessage (s : ConnState) (dirtyness : String) : ConnState :=
  match s.cache with
  | none => s
  | some c =>
    let dirtyInfo := jsSplitPipe dirtyness
    if dirtyInfo.length ≠ 2 then s
    else
      let t := dirtyInfo.headD ""
      let i := (dirtyInfo.drop 1).headD ""
      let c1 := { c with getIdsCaches := setA c.getIdsCaches t none
                         aggregateCaches := setA c.aggregateCaches t none }
      let c2 :=
        if dirtyInfo.length = 2 ∧ (lookupA c1.objectCache t).isSome then
          { c1 with
              objectCache := setA c1.objectCache t (setA ((lookupA c1.objectCache t).getD []) i none) }
        else c1
      { s with cache := some c2 }

/-- The effective object-cache content for one `(entityType, objectId)`
pair: the stored promise handle, with an absent sub-map, an absent entry
and a nulled entry all reading as `none`. -/
def objectCacheEntry (c : CacheState) (objectType objectId : String) : Option Nat :=
  (lookupA ((lookupA c.objectCache objectType).getD []) objectId).getD none

/-- The response body a task resolves with: either the dual-shape
`metadata`-and-`records` envelope or a plain body
(src/src/index.ts lines 197-205). -/
inductive RespBody where
  | withMeta (meta : Nat) (records : List Doc)
  | plainBody (records : List Doc)
  deriving DecidableEq, Repr

/-- The settlement the queue worker applies to a task's deferred. -/
inductive TaskSettle where
  | resolvedRecords (records : List Doc) (meta : Option Nat)
  | rejectedWith (e : JsError)
  deriving DecidableEq, Repr

/-- The queue worker of the connector constructor
(src/src/index.ts lines 152-212): reject without network contact when
neither key nor token is configured; otherwise resolve the deferred with
the (metadata-unwrapped) response records, or reject it with the error of
a failed call.  Exactly one of resolve/reject happens, by construction of
`TaskSettle`. -/
def workerSettle (key token : String) (netOutcome : Except JsError RespBody) : TaskSettle :=
  if key = "" ∧ token = "" then TaskSettle.rejectedWith missingKeyError
  else
    match netOutcome with
    | Except.error e => TaskSettle.rejectedWith e
    | Except.ok (RespBody.withMeta m records) => TaskSettle.resolvedRecords records (some m)
    | Except.ok (RespBody.plainBody records) => TaskSettle.resolvedRecords records none

/-- Modelled from the spec: the dispatch queue itself is the external
`async.queue` the constructor instantiates with concurrency 8
(src/src/index.ts line 212); its admission mechanics are not part of this
repository, so they are modelled from spec sections 4.2 and 5 — a FIFO of
waiting tasks, at most 8 running at once, each completion settling the
task's deferred through the in-source worker.  `waiting` holds the
submitted-but-undispatched task handles in submission order, `dispatched`
records the dispatch history, `running` the in-flight tasks, and
`settled` the delivered settlements. -/
structure QState where
  waiting : List Nat
  dispatched : List Nat
  running : List Nat
  settled : List (Nat × TaskSettle)
  deriving DecidableEq, Repr

/-- Modelled from the spec: a queue holding the submitted tasks, none yet
dispatched. -/
def initQ (tasks : List Nat) : QState :=
  { waiting := tasks, dispatched := [], running := [], settled := [] }

/-- Modelled from the spec: one scheduler event of the dispatch queue.
A waiting task is dispatched only when fewer than 8 tasks are in flight
and only from the head of the FIFO; any in-flight task may complete
(completion order is not guaranteed), settling its deferred via the
worker. -/
inductive QStep (key token : String) (net : Nat → Except JsError RespBody) :
    QState → QState → Prop
  | dispatch (t : Nat) (rest run : List Nat) (disp : List Nat)
      (settled : List (Nat × TaskSettle)) :
      run.length < 8 →
      QStep key token net
        { waiting := t :: rest, dispatched := disp, running := run, settled := settled }
        { waiting := rest, dispatched := disp ++ [t], running := run ++ [t], settled := settled }
  | complete (w disp l r : List Nat) (t : Nat) (settled : List (Nat × TaskSettle)) :
      QStep key token net
        { waiting := w, dispatched := disp, running := l ++ t :: r, settled := settled }
        { waiting := w, dispatched := disp, running := l ++ r
          settled := settled ++ [(t, workerSettle key token (net t))] }

/-- Modelled from the spec: the states the dispatch queue can reach. -/
def QReach (key token : String) (net : Nat → Except JsError RespBody) :
    QState → QState → Prop :=
  Relation.ReflTransGen (QStep key token net)

/-- Modelled from the spec: a fuelled deterministic schedule that drives the
queue to quiescence — dispatch while a slot is free, otherwise complete the
oldest in-flight task. -/
def drainQ (key token : String) (net : Nat → Except JsError RespBody) :
    Nat → QState → QState
  | 0, s => s
  | fuel + 1, s =>
    match s.waiting, s.running with
    | [], [] => s
    | t :: rest, run =>
      if run.length < 8 then
        drainQ key token net fuel
          { waiting := rest, dispatched := s.dispatched ++ [t]
            running := run ++ [t], settled := s.settled }
      else
        match run with
        | [] => s
        | r0 :: rrest =>
          drainQ key token net fuel
            { waiting := t :: rest, dispatched := s.dispatched, running := rrest
              settled := s.settled ++ [(r0, workerSettle key token (net r0))] }
    | [], r0 :: rrest =>
      drainQ key token net fuel
        { waiting := [], dispatched := s.dispatched, running := rrest
          settled := s.settled ++ [(r0, workerSettle key token (net r0))] }

/-- The pending-fetch table is a genuine map: no entity type appears twice,
and no object id appears twice inside one per-type sub-map — hence at most
one pending deferred exists for every `(entityType, objectId)` pair. -/
def QueueWF (s : ConnState) : Prop :=
  (s.getByIdQueue.map Prod.fst).Nodup ∧
    ∀ p ∈ s.getByIdQueue, (p.2.map Prod.fst).Nodup

/-- The fulfilled values among the settled per-id outcomes, in input order:
the `result` array the loop of src/src/index.ts lines 321-327 builds. -/
def fulfilledValues (inspections : List (Except JsError Doc)) : List Doc :=
  inspections.filterMap fun r =>
    match r with
    | Except.ok v => some v
    | Except.error _ => none

/-- The `error` variable of src/src/index.ts lines 320-325: the reason of
the most recent rejection seen while walking the inspections, if any. -/
def lastRejection (inspections : List (Except JsError Doc)) : Option JsError :=
  inspections.foldl
    (fun acc r =>
      match r with
      | Except.error e => some e
      | Except.ok _ => acc)
    none

/-- The full effect of one well-formed dirty message `T|I` on the cache:
the per-type id-search and aggregate tiers of `T` are nulled, the single
object-cache entry of `I` reads as absent, and every other entry — other
ids of `T` and all tiers of every other type — is untouched. -/
def DirtyEffect (c c2 : CacheState) (T I : String) : Prop :=
  lookupA c2.getIdsCaches T = some none ∧
  lookupA c2.aggregateCaches T = some none ∧
  objectCacheEntry c2 T I = none ∧
  (∀ J, J ≠ I → objectCacheEntry c2 T J = objectCacheEntry c T J) ∧
  (∀ T2, T2 ≠ T →
    lookupA c2.objectCache T2 = lookupA c.objectCache T2 ∧
    lookupA c2.getIdsCaches T2 = lookupA c.getIdsCaches T2 ∧
    lookupA c2.aggregateCaches T2 = lookupA c.aggregateCaches T2)

/-- A concrete populated cache used to exercise the invalidation handler:
two cached Person objects and one cached Person id-search. -/
def dirtyDemoCache : CacheState :=
  { objectCache := [("Person", [("abc123", some 5), ("xyz789", some 6)])]
    getIdsCaches := [("Person", some [("hash1", ["abc123"])])]
    aggregateCaches := [("Person", some [("hash2", 9)])] }

/-- A connector holding `dirtyDemoCache`. -/
def dirtyDemoConn : ConnState :=
  { cache := some dirtyDemoCache }

/-- Equality of `Except` outcomes is decidable, so concrete runs of the
embedded operations can be checked by evaluation. -/
instance instExceptDecEq {ε α : Type} [DecidableEq ε] [DecidableEq α] :
    DecidableEq (Except ε α) := fun a b =>
  match a, b with
  | Except.error x, Except.error y =>
    if h : x = y then isTrue (by rw [h])
    else isFalse (fun hh => by cases hh; exact h rfl)
  | Except.error _, Except.ok _ => isFalse (fun hh => Except.noConfusion hh)
  | Except.ok _, Except.error _ => isFalse (fun hh => Except.noConfusion hh)
  | Except.ok x, Except.ok y =>
    if h : x = y then isTrue (by rw [h])
    else isFalse (fun hh => by cases hh; exact h rfl)

/-! ### Association-map lemmas -/

theorem lookupA_setA_self {α : Type} (m : List (String × α)) (k : String) (v : α) :
    lookupA (setA m k v) k = some v := by
  induction m with
  | nil => simp [setA, lookupA]
  | cons p rest ih =>
    by_cases h : p.1 = k
    · simp [setA, lookupA, h]
    · simp [setA, lookupA, h, ih]

theorem lookupA_setA_ne {α : Type} (m : List (String × α)) (k k2 : String) (v : α)
    (h : k2 ≠ k) : lookupA (setA m k v) k2 = lookupA m k2 := by
  have hne : k ≠ k2 := fun hh => h hh.symm
  induction m with
  | nil => simp [setA, lookupA, hne]
  | cons p rest ih =>
    by_cases hp : p.1 = k
    · have hpk2 : ¬ p.1 = k2 := by rw [hp]; exact hne
      simp [setA, lookupA, hp, hne, hpk2]
    · simp [setA, lookupA, hp, ih]

theorem setA_of_lookupA_none {α : Type} (m : List (String × α)) (k : String) (v : α)
    (h : lookupA m k = none) : setA m k v = m ++ [(k, v)] := by
  induction m with
  | nil => simp [setA]
  | cons p rest ih =>
    simp only [lookupA] at h
    by_cases hp : p.1 = k
    · simp [hp] at h
    · simp only [hp, if_false] at h
      simp [setA, hp, ih h]

theorem setA_append_single {α : Type} (m : List (String × α)) (k : String) (v v2 : α)
    (h : lookupA m k = none) : setA (m ++ [(k, v)]) k v2 = m ++ [(k, v2)] := by
  induction m with
  | nil => simp [setA]
  | cons p rest ih =>
    simp only [lookupA] at h
    by_cases hp : p.1 = k
    · simp [hp] at h
    · simp only [hp, if_false] at h
      simp [setA, hp, ih h]

theorem lookupA_append_single_self {α : Type} (m : List (String × α)) (k : String) (v : α)
    (h : lookupA m k = none) : lookupA (m ++ [(k, v)]) k = some v := by
  induction m with
  | nil => simp [lookupA]
  | cons p rest ih =>
    simp only [lookupA] at h
    by_cases hp : p.1 = k
    · simp [hp] at h
    · simp only [hp, if_false] at h
      simp [lookupA, hp, ih h]

theorem lookupA_eq_none_iff {α : Type} (m : List (String × α)) (k : String) :
    lookupA m k = none ↔ k ∉ m.map Prod.fst := by
  induction m with
  | nil => simp [lookupA]
  | cons p rest ih =>
    by_cases hp : p.1 = k
    · simp [lookupA, hp]
    · have hkp : k ≠ p.1 := fun hh => hp hh.symm
      simp [lookupA, hp, ih, hkp]

theorem mem_setA {α : Type} (m : List (String × α)) (k : String) (v : α) :
    ∀ q ∈ setA m k v, q = (k, v) ∨ q ∈ m := by
  induction m with
  | nil => simp [setA]
  | cons p rest ih =>
    intro q hq
    by_cases hp : p.1 = k
    · simp only [setA, hp, if_true, List.mem_cons] at hq
      rcases hq with hq | hq
      · exact Or.inl hq
      · exact Or.inr (List.mem_cons_of_mem _ hq)
    · simp only [setA, hp, if_false, List.mem_cons] at hq
      rcases hq with hq | hq
      · exact Or.inr (by simp [hq])
      · rcases ih q hq with h1 | h1
        · exact Or.inl h1
        · exact Or.inr (List.mem_cons_of_mem _ h1)

theorem setA_map_fst_of_mem {α : Type} (m : List (String × α)) (k : String) (v : α)
    (h : k ∈ m.map Prod.fst) : (setA m k v).map Prod.fst = m.map Prod.fst := by
  induction m with
  | nil => simp at h
  | cons p rest ih =>
    by_cases hp : p.1 = k
    · simp [setA, hp]
    · simp only [List.map_cons, List.mem_cons] at h
      rcases h with h | h
      · exact absurd h.symm hp
      · simp [setA, hp, ih h]

/-! ### `getById` scenario lemmas -/

/-- Line 238-240: a malformed object id is rejected at once, before any
queue, cache or task mutation. -/
theorem getById_invalid (s : ConnState) (objectType objectId : String)
    (params : Option Params) (versionId : Option String)
    (h : objectId.length ≠ 24) :
    getById s objectType objectId params versionId =
      Except.ok (GetByIdRes.rejectedPromise invalidObjectIdError, s) := by
  simp [getById, h]

/-- With the cache enabled, the coalescable path of `getById` throws the
TypeError of `isAvailable` before reaching the pending-fetch table. -/
theorem getById_cache_throws (s : ConnState) (objectType objectId : String)
    (c : CacheState) (hlen : objectId.length = 24) (hc : s.cache = some c) :
    getById s objectType objectId none none = Except.error undefinedReadError := by
  simp [getById, hlen, hc, optTruthy, hasFields, isAvailable, cacheSelfLookup, Except.bind]

/-- Lines 268-271: a repeated request for a pending `(type, id)` pair
returns the pending deferred's promise and leaves the state untouched. -/
theorem getById_dedup (s : ConnState) (objectType objectId : String)
    (sub : List (String × Nat)) (d : Nat)
    (hlen : objectId.length = 24) (hc : s.cache = none)
    (hsub : lookupA s.getByIdQueue objectType = some sub)
    (hid : lookupA sub objectId = some d) :
    getById s objectType objectId none none = Except.ok (GetByIdRes.future d, s) := by
  obtain ⟨q, pr, ca, np, tk, su⟩ := s
  have hc2 : ca = none := hc
  subst hc2
  have hsub2 : lookupA q objectType = some sub := hsub
  simp [getById, hlen, optTruthy, hasFields, coalesceGet, hsub2, hid]

/-- Lines 273-290: a first request installs a fresh deferred at the end of
the per-type sub-map, allocates its promise, and primes the spool. -/
theorem getById_insert (s : ConnState) (objectType objectId : String)
    (hlen : objectId.length = 24) (hc : s.cache = none)
    (hid : lookupA ((lookupA s.getByIdQueue objectType).getD []) objectId = none) :
    getById s objectType objectId none none =
      Except.ok (GetByIdRes.future s.nextPromiseId,
        { s with
            getByIdQueue := setA s.getByIdQueue objectType
              (((lookupA s.getByIdQueue objectType).getD []) ++ [(objectId, s.nextPromiseId)])
            nextPromiseId := s.nextPromiseId + 1
            getByIdPrimed := true }) := by
  obtain ⟨q, pr, ca, np, tk, su⟩ := s
  have hc2 : ca = none := hc
  subst hc2
  have hid2 : lookupA ((lookupA q objectType).getD []) objectId = none := hid
  rcases hq : lookupA q objectType with _ | sub
  · have h1 : setA q objectType ([] : List (String × Nat)) = q ++ [(objectType, [])] :=
      setA_of_lookupA_none _ _ _ hq
    have h2 : lookupA (q ++ [(objectType, [])]) objectType = some ([] : List (String × Nat)) :=
      lookupA_append_single_self _ _ _ hq
    have h3 : setA (q ++ [(objectType, [])]) objectType [(objectId, np)] =
        q ++ [(objectType, [(objectId, np)])] := setA_append_single _ _ _ _ hq
    have h4 : setA q objectType [(objectId, np)] = q ++ [(objectType, [(objectId, np)])] :=
      setA_of_lookupA_none _ _ _ hq
    by_cases hp : pr <;>
      simp [getById, hlen, optTruthy, hasFields, coalesceGet, hq, h1, h2, h3, h4,
        publishToCache, setA, lookupA, hp]
  · rw [hq] at hid2
    simp only [Option.getD_some] at hid2
    have h3 : setA sub objectId np = sub ++ [(objectId, np)] :=
      setA_of_lookupA_none _ _ _ hid2
    by_cases hp : pr <;>
      simp [getById, hlen, optTruthy, hasFields, coalesceGet, hq, hid2, h3,
        publishToCache, hp]

theorem setA_setA {α : Type} (m : List (String × α)) (k : String) (v v2 : α) :
    setA (setA m k v) k v2 = setA m k v2 := by
  induction m with
  | nil => simp [setA]
  | cons p rest ih =>
    by_cases hp : p.1 = k
    · simp [setA, hp]
    · simp [setA, hp, ih]

theorem setA_eq_self_of_lookupA {α : Type} (m : List (String × α)) (k : String) (v : α)
    (h : lookupA m k = some v) : setA m k v = m := by
  induction m with
  | nil => simp [lookupA] at h
  | cons p rest ih =>
    by_cases hp : p.1 = k
    · simp only [lookupA, hp, if_true, Option.some_inj] at h
      simp only [setA, hp, if_true]
      rw [← hp, ← h]
    · simp only [lookupA, hp, if_false] at h
      simp [setA, hp, ih h]

theorem lookupA_append_none {α : Type} (m1 m2 : List (String × α)) (k : String)
    (h1 : lookupA m1 k = none) (h2 : lookupA m2 k = none) :
    lookupA (m1 ++ m2) k = none := by
  induction m1 with
  | nil => simpa using h2
  | cons p rest ih =>
    simp only [lookupA] at h1
    by_cases hp : p.1 = k
    · simp [hp] at h1
    · simp only [hp, if_false] at h1
      simp [lookupA, hp, ih h1]

theorem lookupA_eq_some_mem {α : Type} (m : List (String × α)) (k : String) (v : α)
    (h : lookupA m k = some v) : (k, v) ∈ m := by
  induction m with
  | nil => simp [lookupA] at h
  | cons p rest ih =>
    by_cases hp : p.1 = k
    · simp only [lookupA, hp, if_true, Option.some_inj] at h
      subst h
      rw [← hp]
      exact List.mem_cons_self _ _
    · simp only [lookupA, hp, if_false] at h
      exact List.mem_cons_of_mem _ (ih h)

theorem lookupA_isSome_mem_keys {α : Type} (m : List (String × α)) (k : String)
    (v : α) (h : lookupA m k = some v) : k ∈ m.map Prod.fst := by
  by_contra hk
  rw [← lookupA_eq_none_iff] at hk
  rw [h] at hk
  exact Option.noConfusion hk

/-- The coalescable branch of `getById` (valid id, no version, no fields,
no cache): everything happens in `coalesceGet`. -/
theorem getById_queuePath (s : ConnState) (objectType objectId : String)
    (hlen : objectId.length = 24) (hc : s.cache = none) :
    getById s objectType objectId none none =
      Except.ok (coalesceGet s objectType objectId) := by
  simp [getById, hlen, hc, optTruthy, hasFields]

/-- Inversion: a coalescable `getById` call that hands back a future must
have had a valid id and a disabled cache (with the cache enabled the call
throws instead). -/
theorem getById_ok_future_inv (s : ConnState) (objectType objectId : String)
    (d : Nat) (s2 : ConnState)
    (h : getById s objectType objectId none none =
      Except.ok (GetByIdRes.future d, s2)) :
    objectId.length = 24 ∧ s.cache = none := by
  have hlen : objectId.length = 24 := by
    by_contra hlen
    rw [getById_invalid s objectType objectId none none hlen] at h
    simp at h
  refine ⟨hlen, ?_⟩
  rcases hcc : s.cache with _ | c
  · rfl
  · rw [getById_cache_throws s objectType objectId c hlen hcc] at h
    exact Except.noConfusion h

/-- C2.  For every (entityType, objectId) pair at most one pending deferred
exists in the pending-fetch table (the map shape `QueueWF` is preserved),
and when a coalescable `getById` call (valid 24-character id, no versionId,
no fields) hands back a future, every further call for the same pair within
the same turn returns that very future and leaves the connector state
untouched — so all N callers share one deferred, hence one underlying
network call and one common resolution or rejection. -/
theorem c2_dedup_shared_future (s : ConnState) (objectType objectId : String)
    (d : Nat) (s2 : ConnState)
    (h : getById s objectType objectId none none =
      Except.ok (GetByIdRes.future d, s2)) :
    getById s2 objectType objectId none none =
      Except.ok (GetByIdRes.future d, s2) ∧
    lookupA ((lookupA s2.getByIdQueue objectType).getD []) objectId = some d ∧
    (QueueWF s → QueueWF s2) := by
  obtain ⟨hlen, hc⟩ := getById_ok_future_inv s objectType objectId d s2 h
  rcases hi : lookupA ((lookupA s.getByIdQueue objectType).getD []) objectId with _ | d0
  · -- first request for this pair: a fresh deferred was installed
    rw [getById_insert s objectType objectId hlen hc hi] at h
    simp only [Except.ok.injEq, Prod.mk.injEq, GetByIdRes.future.injEq] at h
    obtain ⟨hd, hs⟩ := h
    subst hd
    subst hs
    have hq2 : lookupA (setA s.getByIdQueue objectType
        (((lookupA s.getByIdQueue objectType).getD []) ++ [(objectId, s.nextPromiseId)]))
        objectType =
        some (((lookupA s.getByIdQueue objectType).getD []) ++ [(objectId, s.nextPromiseId)]) :=
      lookupA_setA_self _ _ _
    have hi2 : lookupA (((lookupA s.getByIdQueue objectType).getD []) ++
        [(objectId, s.nextPromiseId)]) objectId = some s.nextPromiseId :=
      lookupA_append_single_self _ _ _ hi
    refine ⟨?_, ?_, ?_⟩
    · exact getById_dedup _ objectType objectId _ _ hlen hc hq2 hi2
    · simp only [hq2, Option.getD_some]
      exact hi2
    · intro hwf
      constructor
      · show ((setA s.getByIdQueue objectType _).map Prod.fst).Nodup
        rcases hqt : lookupA s.getByIdQueue objectType with _ | sub
        · rw [setA_of_lookupA_none _ _ _ hqt, List.map_append]
          rw [List.nodup_append]
          refine ⟨hwf.1, by simp, ?_⟩
          intro a ha hb
          simp only [List.map_cons, List.map_nil, List.mem_singleton] at hb
          subst hb
          exact (lookupA_eq_none_iff _ _).mp hqt ha
        · rw [setA_map_fst_of_mem _ _ _ (lookupA_isSome_mem_keys _ _ _ hqt)]
          exact hwf.1
      · intro p hp
        rcases mem_setA _ _ _ p hp with hp1 | hp1
        · rw [hp1]
          show ((((lookupA s.getByIdQueue objectType).getD []) ++
              [(objectId, s.nextPromiseId)]).map Prod.fst).Nodup
          rw [List.map_append, List.nodup_append]
          refine ⟨?_, by simp, ?_⟩
          · rcases hqt : lookupA s.getByIdQueue objectType with _ | sub
            · simp
            · simp only [Option.getD_some]
              exact hwf.2 (objectType, sub) (lookupA_eq_some_mem _ _ _ hqt)
          · intro a ha hb
            simp only [List.map_cons, List.map_nil, List.mem_singleton] at hb
            subst hb
            exact (lookupA_eq_none_iff _ _).mp hi ha
        · exact hwf.2 p hp1
  · -- repeated request: the pending deferred is shared
    have hsub : ∃ sub, lookupA s.getByIdQueue objectType = some sub ∧
        lookupA sub objectId = some d0 := by
      rcases hqt : lookupA s.getByIdQueue objectType with _ | sub
      · rw [hqt] at hi
        simp [lookupA] at hi
      · rw [hqt] at hi
        exact ⟨sub, rfl, hi⟩
    obtain ⟨sub, hqt, hsome⟩ := hsub
    rw [getById_dedup s objectType objectId sub d0 hlen hc hqt hsome] at h
    simp only [Except.ok.injEq, Prod.mk.injEq, GetByIdRes.future.injEq] at h
    obtain ⟨hd, hs⟩ := h
    subst hd
    subst hs
    exact ⟨getById_dedup s objectType objectId sub d0 hlen hc hqt hsome,
      by simp [hqt, hsome], fun hwf => hwf⟩

/-- Witness for C2: a first fetch for a valid id from a fresh connector
installs deferred 0; by the theorem, the repeated call returns the same
future and leaves the state unchanged. -/
theorem c2_dedup_shared_future_witness :
    (getById freshConn "Person" "52259f95dafd757b06002221" none none =
      Except.ok (GetByIdRes.future 0,
        { getByIdQueue := [("Person", [("52259f95dafd757b06002221", 0)])]
          getByIdPrimed := true
          nextPromiseId := 1 })) ∧
    getById
        { getByIdQueue := [("Person", [("52259f95dafd757b06002221", 0)])]
          getByIdPrimed := true
          nextPromiseId := 1 }
        "Person" "52259f95dafd757b06002221" none none =
      Except.ok (GetByIdRes.future 0,
        { getByIdQueue := [("Person", [("52259f95dafd757b06002221", 0)])]
          getByIdPrimed := true
          nextPromiseId := 1 }) :=
  ⟨by decide,
   (c2_dedup_shared_future freshConn "Person" "52259f95dafd757b06002221" 0
     { getByIdQueue := [("Person", [("52259f95dafd757b06002221", 0)])]
       getByIdPrimed := true
       nextPromiseId := 1 } (by decide)).1⟩

/-- C8.  An objectId that is not a 24-character string makes `getById`
return an already rejected promise carrying the "Invalid objectId" error,
synchronously: the connector state — pending-fetch table, cache, dispatch
queue — is exactly the one before the call, so no entry or task was
created and no network contact happened. -/
theorem c8_invalid_id_rejected (s : ConnState) (objectType objectId : String)
    (params : Option Params) (versionId : Option String)
    (h : objectId.length ≠ 24) :
    getById s objectType objectId params versionId =
      Except.ok (GetByIdRes.rejectedPromise invalidObjectIdError, s) :=
  getById_invalid s objectType objectId params versionId h

/-- Witness for C8: the three-character id "123". -/
theorem c8_invalid_id_rejected_witness :
    ("123" : String).length ≠ 24 ∧
    getById freshConn "Person" "123" none none =
      Except.ok (GetByIdRes.rejectedPromise invalidObjectIdError, freshConn) :=
  ⟨by decide, c8_invalid_id_rejected freshConn "Person" "123" none none (by decide)⟩

/-- C9.  `getByIds` with an empty id list resolves immediately with the
empty array: the returned state is the argument state, so no queue, cache
or task mutation happens and no network call is issued, for every entity
type and params. -/
theorem c9_empty_ids_immediate (s : ConnState) (objectType : String)
    (params : Option Params) :
    getByIds s objectType [] params = Except.ok (GetByIdsRes.immediate [], s) := by
  simp [getByIds]

/-- Issuing a run of coalescable `getById` calls for fresh distinct valid
ids of one type appends one pending deferred per id, in order, allocating
consecutive promise handles, and primes the spool. -/
theorem runSame_chain (objectType : String) (ids : List String) :
    ∀ (s : ConnState) (sub : List (String × Nat)),
    s.cache = none →
    lookupA s.getByIdQueue objectType = some sub →
    (∀ id ∈ ids, id.length = 24) →
    ids.Nodup →
    (∀ id ∈ ids, lookupA sub id = none) →
    runSame objectType none ids s = Except.ok
      ((List.range' s.nextPromiseId ids.length).map GetByIdRes.future,
       { s with
           getByIdQueue := setA s.getByIdQueue objectType
             (sub ++ ids.zip (List.range' s.nextPromiseId ids.length))
           nextPromiseId := s.nextPromiseId + ids.length
           getByIdPrimed := s.getByIdPrimed || !ids.isEmpty }) := by
  induction ids with
  | nil =>
    intro s sub hc hsub _ _ _
    simp [runSame, List.range', setA_eq_self_of_lookupA _ _ _ hsub]
  | cons id rest ih =>
    intro s sub hc hsub hlen hnd hfree
    have hid : lookupA ((lookupA s.getByIdQueue objectType).getD []) id = none := by
      rw [hsub]
      exact hfree id (List.mem_cons_self _ _)
    have hstep := getById_insert s objectType id (hlen id (List.mem_cons_self _ _)) hc hid
    rw [hsub] at hstep
    simp only [Option.getD_some] at hstep
    have hsub1 : lookupA (setA s.getByIdQueue objectType (sub ++ [(id, s.nextPromiseId)]))
        objectType = some (sub ++ [(id, s.nextPromiseId)]) := lookupA_setA_self _ _ _
    have hfree1 : ∀ id2 ∈ rest, lookupA (sub ++ [(id, s.nextPromiseId)]) id2 = none := by
      intro id2 hid2
      refine lookupA_append_none _ _ _ (hfree id2 (List.mem_cons_of_mem _ hid2)) ?_
      have hne : ¬ id = id2 := by
        intro hh
        subst hh
        exact (List.nodup_cons.mp hnd).1 hid2
      simp [lookupA, hne]
    have hih := ih
      { s with
          getByIdQueue := setA s.getByIdQueue objectType (sub ++ [(id, s.nextPromiseId)])
          nextPromiseId := s.nextPromiseId + 1
          getByIdPrimed := true }
      (sub ++ [(id, s.nextPromiseId)]) hc hsub1
      (fun id2 h2 => hlen id2 (List.mem_cons_of_mem _ h2))
      (List.nodup_cons.mp hnd).2 hfree1
    dsimp only at hih
    simp only [runSame, hstep, Except.bind, hih]
    simp only [setA_setA, List.append_assoc, List.singleton_append, Bool.true_or,
      Bool.or_true, List.isEmpty_cons, Bool.not_false, List.length_cons]
    rw [List.range'_succ]
    simp only [List.zip_cons_cons, List.map_cons, Except.ok.injEq, Prod.mk.injEq,
      ConnState.mk.injEq]
    refine ⟨trivial, trivial, trivial, trivial, ?_, trivial, trivial⟩
    omega

/-- C1.  For every entity type and every non-empty list of M distinct valid
24-character ids fetched through coalescable `getById` calls in one turn
(starting from a fresh connector), the pending table holds exactly those M
deferreds, and the spool then submits exactly one multi-get task for that
type — a POST to the type's search endpoint whose body is the selector
restricting `_id` to exactly those M ids — while resetting the per-type
sub-map to the empty map in the very same step; the batch outcome is only
applied later by `spoolSettle`, so the table is clear before any result
arrives. -/
theorem c1_spool_single_batch (objectType : String) (ids : List String)
    (hne : ids ≠ []) (hnd : ids.Nodup) (hlen : ∀ id ∈ ids, id.length = 24) :
    runSame objectType none ids freshConn = Except.ok
      ((List.range' 0 ids.length).map GetByIdRes.future,
       { getByIdQueue := [(objectType, ids.zip (List.range' 0 ids.length))]
         getByIdPrimed := true
         nextPromiseId := ids.length }) ∧
    spoolQueue
      { getByIdQueue := [(objectType, ids.zip (List.range' 0 ids.length))]
        getByIdPrimed := true
        nextPromiseId := ids.length } =
      ({ getByIdQueue := [(objectType, [])]
         getByIdPrimed := false
         nextPromiseId := ids.length + 1
         tasks := [{ url := "https://api.communibase.nl/0.1/" ++ objectType ++ ".json/search"
                     method := "POST"
                     data := some (SearchSelector.idIn ids)
                     deferred := ids.length }] },
       [{ objectType := objectType
          objectIds := ids
          deferredsById := ids.zip (List.range' 0 ids.length)
          batchDeferred := ids.length }]) := by
  constructor
  · match ids, hne with
    | id :: rest, _ =>
      have hstep := getById_insert freshConn objectType id
        (hlen id (List.mem_cons_self _ _)) rfl (by simp [freshConn, lookupA])
      simp only [freshConn, lookupA, Option.getD_none, List.nil_append, setA] at hstep
      have hsub1 : lookupA [(objectType, [(id, 0)])] objectType = some [(id, 0)] := by
        simp [lookupA]
      have hfree1 : ∀ id2 ∈ rest, lookupA [(id, 0)] id2 = none := by
        intro id2 hid2
        have hne2 : ¬ id = id2 := by
          intro hh
          subst hh
          exact (List.nodup_cons.mp hnd).1 hid2
        simp [lookupA, hne2]
      have hih := runSame_chain objectType rest
        { getByIdQueue := [(objectType, [(id, 0)])]
          getByIdPrimed := true
          nextPromiseId := 1 }
        [(id, 0)] rfl hsub1
        (fun id2 h2 => hlen id2 (List.mem_cons_of_mem _ h2))
        (List.nodup_cons.mp hnd).2 hfree1
      dsimp only at hih
      simp only [freshConn, runSame, hstep, Nat.zero_add, Except.bind, hih]
      simp only [setA, List.singleton_append, List.length_cons]
      rw [List.range'_succ]
      simp only [List.zip_cons_cons, List.map_cons, Except.ok.injEq, Prod.mk.injEq,
        ConnState.mk.injEq, Nat.zero_add, true_and, and_true]
      refine ⟨by simp, by simp, by omega⟩
  · have hkeys : (ids.zip (List.range' 0 ids.length)).map Prod.fst = ids :=
      List.map_fst_zip _ _ (by simp)
    simp [spoolQueue, setA, hkeys]

/-- Witness for C1: two distinct valid ids of one type, fetched in one
turn, spool into exactly one multi-get task covering both. -/
theorem c1_spool_single_batch_witness :
    runSame "Person" none
        ["aaaaaaaaaaaaaaaaaaaaaaaa", "bbbbbbbbbbbbbbbbbbbbbbbb"] freshConn =
      Except.ok ([GetByIdRes.future 0, GetByIdRes.future 1],
        { getByIdQueue :=
            [("Person", [("aaaaaaaaaaaaaaaaaaaaaaaa", 0), ("bbbbbbbbbbbbbbbbbbbbbbbb", 1)])]
          getByIdPrimed := true
          nextPromiseId := 2 }) ∧
    spoolQueue
      { getByIdQueue :=
          [("Person", [("aaaaaaaaaaaaaaaaaaaaaaaa", 0), ("bbbbbbbbbbbbbbbbbbbbbbbb", 1)])]
        getByIdPrimed := true
        nextPromiseId := 2 } =
      ({ getByIdQueue := [("Person", [])]
         getByIdPrimed := false
         nextPromiseId := 3
         tasks := [{ url := "https://api.communibase.nl/0.1/Person.json/search"
                     method := "POST"
                     data := some (SearchSelector.idIn
                       ["aaaaaaaaaaaaaaaaaaaaaaaa", "bbbbbbbbbbbbbbbbbbbbbbbb"])
                     deferred := 2 }] },
       [{ objectType := "Person"
          objectIds := ["aaaaaaaaaaaaaaaaaaaaaaaa", "bbbbbbbbbbbbbbbbbbbbbbbb"]
          deferredsById :=
            [("aaaaaaaaaaaaaaaaaaaaaaaa", 0), ("bbbbbbbbbbbbbbbbbbbbbbbb", 1)]
          batchDeferred := 2 }]) :=
  c1_spool_single_batch "Person"
    ["aaaaaaaaaaaaaaaaaaaaaaaa", "bbbbbbbbbbbbbbbbbbbbbbbb"]
    (by decide) (by decide) (by decide)

/-- Iterating over the keys of a duplicate-free association map and looking
each key up visits every entry exactly once, in order. -/
theorem filterMap_keys_eq_map (dbi : List (String × Nat)) (g : String → Settlement)
    (hnd : (dbi.map Prod.fst).Nodup) :
    (dbi.map Prod.fst).filterMap
        (fun oid => (lookupA dbi oid).map (fun h => (h, g oid))) =
      dbi.map (fun p => (p.2, g p.1)) := by
  induction dbi with
  | nil => simp
  | cons p rest ih =>
    have hnotin : p.1 ∉ rest.map Prod.fst := (List.nodup_cons.mp hnd).1
    have hcongr : ∀ oid ∈ rest.map Prod.fst,
        (lookupA (p :: rest) oid).map (fun h => (h, g oid)) =
        (lookupA rest oid).map (fun h => (h, g oid)) := by
      intro oid hoid
      have hne : ¬ p.1 = oid := fun hh => hnotin (hh ▸ hoid)
      simp [lookupA, hne]
    simp only [List.map_cons, List.filterMap_cons]
    rw [List.filterMap_congr hcongr]
    rw [ih (List.nodup_cons.mp hnd).2]
    simp [lookupA]

/-- Every hit of the `_id` index points at a document of the result list
bearing that `_id`. -/
theorem objectHash_sound (docs : List Doc) :
    ∀ (acc : List (String × Doc)) (oid : String) (doc : Doc),
    lookupA (docs.foldl (fun a d => setA a d._id d) acc) oid = some doc →
    (doc ∈ docs ∧ doc._id = oid) ∨ lookupA acc oid = some doc := by
  induction docs with
  | nil => intro acc oid doc h; exact Or.inr h
  | cons d rest ih =>
    intro acc oid doc h
    rcases ih (setA acc d._id d) oid doc h with h1 | h1
    · exact Or.inl ⟨List.mem_cons_of_mem _ h1.1, h1.2⟩
    · by_cases hoid : d._id = oid
      · rw [← hoid, lookupA_setA_self] at h1
        have hd : d = doc := by injection h1
        subst hd
        exact Or.inl ⟨List.mem_cons_self _ _, hoid⟩
      · rw [lookupA_setA_ne acc d._id oid d (fun hh => hoid hh.symm)] at h1
        exact Or.inr h1

/-- C3.  Delivering a multi-get batch outcome settles every drained
deferred exactly once, according only to its own id: on success, an id
whose document is in the indexed result resolves with that document (which
the `objectHash` soundness conjunct ties to a returned document bearing
that `_id`), an absent id rejects only its own deferred with the
"<id> is not found" error; on a failed batch call every deferred is
rejected with that same error.  The per-entry map shape makes it
impossible for one missing id to affect a sibling's settlement. -/
theorem c3_partial_batch_settlement (dbi : List (String × Nat))
    (hnd : (dbi.map Prod.fst).Nodup) :
    (∀ docs : List Doc,
      spoolSettle dbi (Except.ok docs) =
        dbi.map (fun p => (p.2,
          match lookupA (objectHash docs) p.1 with
          | some doc => Settlement.resolvedDoc doc
          | none => Settlement.rejectedErr (notFoundError p.1)))) ∧
    (∀ err : JsError,
      spoolSettle dbi (Except.error err) =
        dbi.map (fun p => (p.2, Settlement.rejectedErr err))) ∧
    (∀ (docs : List Doc) (oid : String) (doc : Doc),
      lookupA (objectHash docs) oid = some doc → doc ∈ docs ∧ doc._id = oid) := by
  refine ⟨?_, ?_, ?_⟩
  · intro docs
    exact filterMap_keys_eq_map dbi _ hnd
  · intro err
    exact filterMap_keys_eq_map dbi _ hnd
  · intro docs oid doc h
    rcases objectHash_sound docs [] oid doc h with h1 | h1
    · exact h1
    · simp [lookupA] at h1

/-- Witness for C3: a two-id batch where only the first id comes back, and
a failed batch. -/
theorem c3_partial_batch_settlement_witness :
    spoolSettle [("aaaaaaaaaaaaaaaaaaaaaaaa", 0), ("cccccccccccccccccccccccc", 1)]
        (Except.ok [{ _id := "aaaaaaaaaaaaaaaaaaaaaaaa", body := 7 }]) =
      [(0, Settlement.resolvedDoc { _id := "aaaaaaaaaaaaaaaaaaaaaaaa", body := 7 }),
       (1, Settlement.rejectedErr (notFoundError "cccccccccccccccccccccccc"))] ∧
    spoolSettle [("aaaaaaaaaaaaaaaaaaaaaaaa", 0), ("cccccccccccccccccccccccc", 1)]
        (Except.error { message := "network down" }) =
      [(0, Settlement.rejectedErr { message := "network down" }),
       (1, Settlement.rejectedErr { message := "network down" })] := by
  have h := c3_partial_batch_settlement
    [("aaaaaaaaaaaaaaaaaaaaaaaa", 0), ("cccccccccccccccccccccccc", 1)] (by decide)
  constructor
  · rw [h.1 [{ _id := "aaaaaaaaaaaaaaaaaaaaaaaa", body := 7 }]]
    decide
  · rw [h.2.1 { message := "network down" }]
    decide

/-- The fold of `aggregateInspections` splits into the collected fulfilled
values and the most recent rejection. -/
theorem aggregate_foldl_split (inspections : List (Except JsError Doc)) :
    ∀ acc : List Doc × Option JsError,
    inspections.foldl
        (fun (acc2 : List Doc × Option JsError) insp =>
          match insp with
          | Except.error e => (acc2.1, some e)
          | Except.ok v => (acc2.1 ++ [v], acc2.2))
        acc =
      (acc.1 ++ fulfilledValues inspections,
       inspections.foldl
        (fun acc2 insp =>
          match insp with
          | Except.error e => some e
          | Except.ok _ => acc2)
        acc.2) := by
  induction inspections with
  | nil => intro acc; simp [fulfilledValues]
  | cons r rest ih =>
    intro acc
    match r with
    | Except.ok v =>
      simp only [List.foldl_cons, ih, fulfilledValues, List.filterMap_cons]
      simp
    | Except.error e =>
      simp only [List.foldl_cons, ih, fulfilledValues, List.filterMap_cons]

/-- Walking the remaining inspections never turns a present last-rejection
into an absent one. -/
theorem lastRejection_go_isSome (rest : List (Except JsError Doc)) :
    ∀ e : JsError, ∃ e2,
    rest.foldl
        (fun acc2 insp =>
          match insp with
          | Except.error e3 => some e3
          | Except.ok _ => acc2)
        (some e) = some e2 := by
  induction rest with
  | nil => intro e; exact ⟨e, rfl⟩
  | cons r rest2 ih =>
    intro e
    match r with
    | Except.ok v => simpa using ih e
    | Except.error e3 => simpa using ih e3

/-- Counterexample to C5 as stated: when every per-id fetch fails, the
aggregate `getByIds` rejection is `new Error(error)` — a fresh generic
error whose message is the string rendering of the last per-id error — not
that last per-id error itself. -/
theorem c5_last_error_not_identical :
    lastRejection [Except.error (notFoundError "a"), Except.error (notFoundError "b")] =
      some (notFoundError "b") ∧
    aggregateInspections
        [Except.error (notFoundError "a"), Except.error (notFoundError "b")] ≠
      Except.error (notFoundError "b") ∧
    aggregateInspections
        [Except.error (notFoundError "a"), Except.error (notFoundError "b")] =
      Except.error { name := "Error", message := "Error: b is not found" } := by
  decide

/-- C5 (amended).  For a non-empty inspection list (non-empty id list in
`getByIds` without a fields param): when every per-id fetch failed, the
call rejects with `new Error(e)` where `e` is the last observed per-id
error — a fresh Error wrapping that error's string rendering; when at
least one per-id fetch succeeded, the call resolves with exactly the
fulfilled values in input order, silently dropping the failed ids. -/
theorem c5_aggregate_amended (inspections : List (Except JsError Doc))
    (hne : inspections ≠ []) :
    (fulfilledValues inspections = [] →
      ∃ e, lastRejection inspections = some e ∧
        aggregateInspections inspections = Except.error (newError e)) ∧
    (fulfilledValues inspections ≠ [] →
      aggregateInspections inspections = Except.ok (fulfilledValues inspections)) := by
  have hsplit := aggregate_foldl_split inspections ([], none)
  constructor
  · intro hall
    have hsome : ∃ e, lastRejection inspections = some e := by
      match inspections, hne with
      | r :: rest, _ =>
        match r with
        | Except.ok v =>
          exfalso
          simp [fulfilledValues, List.filterMap_cons] at hall
        | Except.error e =>
          simpa [lastRejection] using lastRejection_go_isSome rest e
    obtain ⟨e, he⟩ := hsome
    refine ⟨e, he, ?_⟩
    simp only [aggregateInspections, hsplit, hall, List.nil_append, List.append_nil]
    have he2 : inspections.foldl
        (fun acc2 insp =>
          match insp with
          | Except.error e3 => some e3
          | Except.ok _ => acc2)
        none = some e := he
    simp [he2]
  · intro hsomeval
    simp only [aggregateInspections, hsplit, List.nil_append]
    have hlen : (fulfilledValues inspections).length ≠ 0 := by
      intro hh
      exact hsomeval (List.length_eq_zero.mp hh)
    simp [hlen]

/-- Witness for C5 (amended): one all-failed pair and one mixed pair. -/
theorem c5_aggregate_amended_witness :
    ([Except.error (notFoundError "a"), Except.error (notFoundError "b")] :
        List (Except JsError Doc)) ≠ [] ∧
    (∃ e, lastRejection
        [Except.error (notFoundError "a"), Except.error (notFoundError "b")] = some e ∧
      aggregateInspections
          [Except.error (notFoundError "a"), Except.error (notFoundError "b")] =
        Except.error (newError e)) ∧
    aggregateInspections [Except.error (notFoundError "a"), Except.ok { _id := "b" }] =
      Except.ok (fulfilledValues
        [Except.error (notFoundError "a"), Except.ok { _id := "b" }]) :=
  ⟨by decide,
   (c5_aggregate_amended
      [Except.error (notFoundError "a"), Except.error (notFoundError "b")]
      (by decide)).1 (by decide),
   (c5_aggregate_amended
      [Except.error (notFoundError "a"), Except.ok { _id := "b" }]
      (by decide)).2 (by decide)⟩

/-- C6.  With the cache enabled, a well-formed dirty message `T|I`
(exactly two pipe-separated parts) nulls the whole id-search tier and the
whole aggregate tier of type `T` and drops the single object-cache entry
`(T, I)`, while every entry `(T, J)` with `J ≠ I` and every tier of every
other entity type keep their previous content, and nothing outside the
cache changes; a malformed message (not exactly two parts) is logged and
leaves the connector state exactly as it was. -/
theorem c6_invalidation_frame (s : ConnState) (c : CacheState) (T I msg : String)
    (hc : s.cache = some c) :
    (jsSplitPipe msg = [T, I] →
      ∃ c2, handleDirtyMessage s msg = { s with cache := some c2 } ∧
        DirtyEffect c c2 T I) ∧
    ((jsSplitPipe msg).length ≠ 2 → handleDirtyMessage s msg = s) := by
  constructor
  · intro h1
    rcases hoc : lookupA c.objectCache T with _ | sub
    · refine ⟨{ c with getIdsCaches := setA c.getIdsCaches T none
                       aggregateCaches := setA c.aggregateCaches T none }, ?_, ?_⟩
      · simp [handleDirtyMessage, hc, h1, hoc]
      · refine ⟨lookupA_setA_self _ _ _, lookupA_setA_self _ _ _, ?_, ?_, ?_⟩
        · simp [objectCacheEntry, hoc, lookupA]
        · intro J hJ
          rfl
        · intro T2 hT2
          exact ⟨rfl, lookupA_setA_ne _ _ _ _ hT2, lookupA_setA_ne _ _ _ _ hT2⟩
    · refine ⟨{ c with getIdsCaches := setA c.getIdsCaches T none
                       aggregateCaches := setA c.aggregateCaches T none
                       objectCache := setA c.objectCache T (setA sub I none) }, ?_, ?_⟩
      · simp [handleDirtyMessage, hc, h1, hoc]
      · refine ⟨lookupA_setA_self _ _ _, lookupA_setA_self _ _ _, ?_, ?_, ?_⟩
        · simp [objectCacheEntry, lookupA_setA_self]
        · intro J hJ
          simp [objectCacheEntry, lookupA_setA_self, hoc, lookupA_setA_ne _ _ _ _ hJ]
        · intro T2 hT2
          exact ⟨lookupA_setA_ne _ _ _ _ hT2, lookupA_setA_ne _ _ _ _ hT2,
            lookupA_setA_ne _ _ _ _ hT2⟩
  · intro h2
    simp [handleDirtyMessage, hc, h2]

/-- Witness for C6: the message Person|abc123 against a populated cache,
and the malformed message weird123. -/
theorem c6_invalidation_frame_witness :
    jsSplitPipe "Person|abc123" = ["Person", "abc123"] ∧
    (∃ c2, handleDirtyMessage dirtyDemoConn "Person|abc123" =
        { dirtyDemoConn with cache := some c2 } ∧
      DirtyEffect dirtyDemoCache c2 "Person" "abc123") ∧
    (jsSplitPipe "weird123").length ≠ 2 ∧
    handleDirtyMessage dirtyDemoConn "weird123" = dirtyDemoConn :=
  ⟨by decide,
   (c6_invalidation_frame dirtyDemoConn dirtyDemoCache "Person" "abc123"
      "Person|abc123" rfl).1 (by decide),
   by decide,
   (c6_invalidation_frame dirtyDemoConn dirtyDemoCache "Person" "abc123"
      "weird123" rfl).2 (by decide)⟩

/-- C4 (code bug).  With the cache enabled, the coalescable `getById` path
never returns a cached future: `isAvailable` is a shorthand method of the
cache object literal, so its `this` is that literal, which has no `cache`
property — `this.cache.objectCache` therefore throws a TypeError.  The
evaluation below shows the throw both right after `enableCache` and in the
claim's own scenario, where the object cache already holds a settled
future for the requested pair, which a correct `isAvailable` (as in the
repository's lib/index.js and legacy src/src/index.js) would return
without any network call. -/
theorem c4_cache_enabled_getById_throws :
    getById (enableCache freshConn) "Person" "52259f95dafd757b06002221" none none =
      Except.error undefinedReadError ∧
    getById
        { freshConn with
            cache := some { objectCache :=
              [("Person", [("52259f95dafd757b06002221", some 0)])] } }
        "Person" "52259f95dafd757b06002221" none none =
      Except.error undefinedReadError := by
  decide

/-- C10.  `getId` asks `getIds` for the ids matching the selector with a
limit of one and resolves with `ids.pop()`: the last element of whatever
id list `getIds` produced, and `undefined` (`none`) — not a rejection —
when that list is empty. -/
theorem c10_getId_last_of_limit_one
    (getIdsFn : Option SearchSelector → Params → Except JsError (List String))
    (selector : Option SearchSelector) (ids : List String)
    (h : getIdsFn selector { limit := some 1 } = Except.ok ids) :
    getId getIdsFn selector = Except.ok ids.getLast? ∧
    (ids = [] → getId getIdsFn selector = Except.ok none) := by
  constructor
  · simp [getId, h, Except.map]
  · intro h2
    subst h2
    simp [getId, h, Except.map]

/-- Witness for C10: a two-element id list and an empty one. -/
theorem c10_getId_last_of_limit_one_witness :
    ((fun (_ : Option SearchSelector) (_ : Params) =>
        Except.ok (ε := JsError) ["aaaaaaaaaaaaaaaaaaaaaaaa", "bbbbbbbbbbbbbbbbbbbbbbbb"])
      none { limit := some 1 } =
        Except.ok ["aaaaaaaaaaaaaaaaaaaaaaaa", "bbbbbbbbbbbbbbbbbbbbbbbb"]) ∧
    getId (fun _ _ =>
        Except.ok ["aaaaaaaaaaaaaaaaaaaaaaaa", "bbbbbbbbbbbbbbbbbbbbbbbb"]) none =
      Except.ok (some "bbbbbbbbbbbbbbbbbbbbbbbb") ∧
    getId (fun _ _ => Except.ok []) none = Except.ok none :=
  ⟨rfl,
   (c10_getId_last_of_limit_one
      (fun _ _ => Except.ok ["aaaaaaaaaaaaaaaaaaaaaaaa", "bbbbbbbbbbbbbbbbbbbbbbbb"])
      none ["aaaaaaaaaaaaaaaaaaaaaaaa", "bbbbbbbbbbbbbbbbbbbbbbbb"] rfl).1,
   (c10_getId_last_of_limit_one (fun _ _ => Except.ok []) none [] rfl).2 rfl⟩

/-- Invariants of every reachable dispatch-queue state: never more than 8
tasks in flight, dispatch history plus the still-waiting FIFO is exactly
the submission list in submission order, and no task is lost or duplicated
across the waiting, running and settled populations. -/
theorem qreach_invariants (key token : String) (net : Nat → Except JsError RespBody)
    (tasks : List Nat) (s : QState)
    (h : QReach key token net (initQ tasks) s) :
    s.running.length ≤ 8 ∧
    tasks = s.dispatched ++ s.waiting ∧
    List.Perm (s.settled.map Prod.fst ++ s.running ++ s.waiting) tasks := by
  induction h with
  | refl => simp [initQ]
  | tail _ hstep ih =>
    obtain ⟨ihcap, ihfifo, ihperm⟩ := ih
    cases hstep with
    | dispatch t rest run disp settled hlt =>
      refine ⟨by simp only [List.length_append, List.length_cons, List.length_nil]; omega,
        ?_, ?_⟩
      · rw [ihfifo]
        simp
      · simp only [List.append_assoc, List.singleton_append] at ihperm ⊢
        exact ihperm
    | complete w disp l r t settled =>
      refine ⟨?_, ihfifo, ?_⟩
      · have := ihcap
        simp only [List.length_append, List.length_cons] at this ⊢
        omega
      · simp only [List.map_append, List.map_cons, List.map_nil,
          List.append_assoc, List.singleton_append, List.cons_append,
          List.nil_append] at ihperm ⊢
        have hp : (l ++ t :: (r ++ w)).Perm (t :: (l ++ (r ++ w))) :=
          List.perm_middle
        exact ((hp.append_left _).symm.trans ihperm)

/-- With enough fuel (twice the waiting count plus the running count), the
greedy drain schedule empties the queue: every waiting task is dispatched,
in submission order, and the settled population is exactly the previous
settled, running and waiting populations together. -/
theorem drainQ_drains (key token : String) (net : Nat → Except JsError RespBody) :
    ∀ (fuel : Nat) (s : QState),
    2 * s.waiting.length + s.running.length ≤ fuel →
    (drainQ key token net fuel s).waiting = [] ∧
    (drainQ key token net fuel s).running = [] ∧
    (drainQ key token net fuel s).dispatched = s.dispatched ++ s.waiting ∧
    List.Perm ((drainQ key token net fuel s).settled.map Prod.fst)
      (s.settled.map Prod.fst ++ s.running ++ s.waiting) := by
  intro fuel
  induction fuel with
  | zero =>
    intro s hfuel
    have hw : s.waiting = [] := by
      have := List.length_eq_zero.mp (by omega : s.waiting.length = 0)
      exact this
    have hr : s.running = [] := by
      have := List.length_eq_zero.mp (by omega : s.running.length = 0)
      exact this
    simp [drainQ, hw, hr]
  | succ fuel ih =>
    intro s hfuel
    obtain ⟨w, disp, run, settled⟩ := s
    match hw : w, hr : run with
    | [], [] => simp [drainQ]
    | t :: rest, run2 =>
      by_cases hlt : run2.length < 8
      · have hm : 2 * rest.length + (run2 ++ [t]).length ≤ fuel := by
          simp only [List.length_cons] at hfuel
          simp only [List.length_append, List.length_cons, List.length_nil]
          omega
        have hrec := ih { waiting := rest, dispatched := disp ++ [t]
                          running := run2 ++ [t], settled := settled } hm
        refine ⟨?_, ?_, ?_, ?_⟩
        · simpa [drainQ, hlt] using hrec.1
        · simpa [drainQ, hlt] using hrec.2.1
        · have h3 := hrec.2.2.1
          simp only [drainQ, hlt, if_true]
          simp only at h3
          rw [h3]
          simp
        · have h4 := hrec.2.2.2
          simp only [drainQ, hlt, if_true]
          simp only at h4
          simp only [List.append_assoc, List.singleton_append] at h4 ⊢
          exact h4
      · match run2, hlt with
        | r0 :: rrest, hlt2 =>
          have hm : 2 * (t :: rest).length + rrest.length ≤ fuel := by
            simp only [List.length_cons] at hfuel ⊢
            omega
          have hrec := ih { waiting := t :: rest, dispatched := disp
                            running := rrest
                            settled := settled ++ [(r0, workerSettle key token (net r0))] } hm
          have hunfold : drainQ key token net (fuel + 1)
              { waiting := t :: rest, dispatched := disp, running := r0 :: rrest
                settled := settled } =
              drainQ key token net fuel
              { waiting := t :: rest, dispatched := disp, running := rrest
                settled := settled ++ [(r0, workerSettle key token (net r0))] } := by
            simp only [drainQ]
            rw [if_neg hlt2]
          refine ⟨?_, ?_, ?_, ?_⟩
          · rw [hunfold]
            exact hrec.1
          · rw [hunfold]
            exact hrec.2.1
          · rw [hunfold]
            exact hrec.2.2.1
          · rw [hunfold]
            have h4 := hrec.2.2.2
            simp only [List.map_append, List.map_cons, List.map_nil,
              List.append_assoc, List.singleton_append, List.cons_append,
              List.nil_append] at h4 ⊢
            exact h4
    | [], r0 :: rrest =>
      have hm : 2 * ([] : List Nat).length + rrest.length ≤ fuel := by
        simp only [List.length_cons, List.length_nil] at hfuel ⊢
        omega
      have hrec := ih { waiting := [], dispatched := disp
                        running := rrest
                        settled := settled ++ [(r0, workerSettle key token (net r0))] } hm
      refine ⟨?_, ?_, ?_, ?_⟩
      · simpa [drainQ] using hrec.1
      · simpa [drainQ] using hrec.2.1
      · simpa [drainQ] using hrec.2.2.1
      · have h4 := hrec.2.2.2
        simp only [drainQ]
        simp only [List.map_append, List.map_cons, List.map_nil,
          List.append_assoc, List.singleton_append, List.cons_append,
          List.nil_append] at h4 ⊢
        exact h4

/-- C7.  For any submission list: every reachable state of the dispatch
queue has at most 8 tasks in flight; tasks are dispatched from the head of
the FIFO, so the dispatch history followed by the still-waiting tasks is
exactly the submission list in submission order; and from any reachable
state the queue drains — every waiting task gets dispatched in order and
the final settled population is, up to completion order, exactly the
submitted tasks, each settled once with a `TaskSettle` value that is by
construction either a single resolve or a single reject of its deferred
through the in-source worker. -/
theorem c7_dispatch_queue_cap (key token : String)
    (net : Nat → Except JsError RespBody) (tasks : List Nat) (s : QState)
    (h : QReach key token net (initQ tasks) s) :
    s.running.length ≤ 8 ∧
    tasks = s.dispatched ++ s.waiting ∧
    (drainQ key token net (2 * s.waiting.length + s.running.length) s).waiting = [] ∧
    (drainQ key token net (2 * s.waiting.length + s.running.length) s).running = [] ∧
    (drainQ key token net (2 * s.waiting.length + s.running.length) s).dispatched =
      s.dispatched ++ s.waiting ∧
    List.Perm
      ((drainQ key token net (2 * s.waiting.length + s.running.length) s).settled.map
        Prod.fst)
      tasks := by
  obtain ⟨hcap, hfifo, hperm⟩ := qreach_invariants key token net tasks s h
  obtain ⟨hdw, hdr, hdd, hdp⟩ :=
    drainQ_drains key token net (2 * s.waiting.length + s.running.length) s (by omega)
  refine ⟨hcap, hfifo, hdw, hdr, hdd, ?_⟩
  refine hdp.trans ?_
  simpa [List.append_assoc] using hperm

/-- Witness for C7: ten tasks submitted to a fresh queue (a reachable
state via the empty step sequence), drained to completion. -/
theorem c7_dispatch_queue_cap_witness :
    QReach "key" "" (fun _ => Except.ok (RespBody.plainBody []))
      (initQ [0, 1, 2, 3, 4, 5, 6, 7, 8, 9]) (initQ [0, 1, 2, 3, 4, 5, 6, 7, 8, 9]) ∧
    (initQ [0, 1, 2, 3, 4, 5, 6, 7, 8, 9]).running.length ≤ 8 ∧
    [0, 1, 2, 3, 4, 5, 6, 7, 8, 9] =
      (initQ [0, 1, 2, 3, 4, 5, 6, 7, 8, 9]).dispatched ++
        (initQ [0, 1, 2, 3, 4, 5, 6, 7, 8, 9]).waiting ∧
    List.Perm
      ((drainQ "key" "" (fun _ => Except.ok (RespBody.plainBody []))
          (2 * (initQ [0, 1, 2, 3, 4, 5, 6, 7, 8, 9]).waiting.length +
            (initQ [0, 1, 2, 3, 4, 5, 6, 7, 8, 9]).running.length)
          (initQ [0, 1, 2, 3, 4, 5, 6, 7, 8, 9])).settled.map Prod.fst)
      [0, 1, 2, 3, 4, 5, 6, 7, 8, 9] := by
  have h := c7_dispatch_queue_cap "key" "" (fun _ => Except.ok (RespBody.plainBody []))
    [0, 1, 2, 3, 4, 5, 6, 7, 8, 9] (initQ [0, 1, 2, 3, 4, 5, 6, 7, 8, 9])
    Relation.ReflTransGen.refl
  exact ⟨Relation.ReflTransGen.refl, h.1, h.2.1, h.2.2.2.2.2⟩

end Communibase
